import Mathlib

/-!
Verification of the go-fdo-client onboarding core: a shallow embedding of
the retry/backoff orchestrator (`transferOwnership`, `getOwnerURLs`,
`addJitter`, `applyDelay` in cmd/onboard.go) and of the credential
persistence helpers (`moveFile`, `copyAndRemove` in cmd/fsutil.go),
together with proofs of the specification's claims about them.

Durations are modelled as `Int` nanoseconds (Go's `time.Duration` is an
`int64` count of nanoseconds); the `float64` arithmetic of `addJitter` is
modelled exactly over `ℚ`, with the final `time.Duration(...)` conversion
modelled as truncation toward zero, which is Go's float-to-int semantics.
-/

namespace FdoClient

/-- Go's `time.Duration(x)` for a `float64` `x`: conversion truncates
toward zero.  Modelled on exact rationals. -/
def goTruncToInt (q : ℚ) : ℤ :=
  if 0 ≤ q then ⌊q⌋ else ⌈q⌉

/-- Floor of the base-2 logarithm of a positive rational. -/
def qlog2 (a : ℚ) : ℤ :=
  let e0 : ℤ := (Nat.log2 a.num.natAbs : ℤ) - (Nat.log2 a.den : ℤ)
  if a < 2 ^ e0 then e0 - 1 else e0

/-- Round a rational to the nearest integer, ties to even (the IEEE 754
default rounding, applied to a scaled significand). -/
def rne (x : ℚ) : ℤ :=
  let n := ⌊x⌋
  let f := x - n
  if f < 1/2 then n
  else if 1/2 < f then n + 1
  else if n % 2 = 0 then n else n + 1

/-- Round a rational to the nearest `float64` value: 53-bit significand,
round to nearest, ties to even.  The exponent is left unbounded: every
value this development applies `fl` to lies well inside the normal range
of IEEE 754 binary64, where the two semantics agree (no overflow, no
subnormals). -/
def fl (q : ℚ) : ℚ :=
  if q = 0 then 0
  else
    let e : ℤ := qlog2 |q| - 52
    (rne (q / 2 ^ e) : ℚ) * 2 ^ e

/-- Values exactly representable as a `float64` (unbounded exponent):
a 53-bit significand times a power of two. -/
def Rep (c : ℚ) : Prop :=
  ∃ m E : ℤ, c = (m : ℚ) * 2 ^ E ∧ |m| ≤ 2 ^ 53

/-- Go's two's-complement `int64` wraparound for addition. -/
def wrap64 (z : ℤ) : ℤ := (z + 2 ^ 63) % 2 ^ 64 - 2 ^ 63

/-- Function `addJitter` from cmd/onboard.go:

    jitterPercent := 0.25 * (2*rand.Float64() - 1)
    jitter := float64(delay) * jitterPercent
    return delay + time.Duration(jitter)

modelled with the machine semantics of the source: every `float64`
operation rounds to nearest-even at 53 bits (`fl`), the `float64(delay)`
conversion rounds, `time.Duration(jitter)` truncates toward zero
(`jitter` here always fits in `int64`), and the final `int64` addition
wraps (`wrap64`).  The random draw `rand.Float64()` (a value in `[0,1)`)
is passed in explicitly as `r`. -/
def addJitter (delay : ℤ) (r : ℚ) : ℤ :=
  let jitterPercent : ℚ := fl ((1/4 : ℚ) * fl (fl (2 * r) - 1))
  let jitter : ℚ := fl (fl (delay : ℚ) * jitterPercent)
  wrap64 (delay + goTruncToInt jitter)

theorem goTruncToInt_le_self_of_nonneg {q : ℚ} (h : 0 ≤ q) :
    (goTruncToInt q : ℚ) ≤ q := by
  simp only [goTruncToInt, if_pos h]
  exact_mod_cast Int.floor_le q

theorem goTruncToInt_nonneg {q : ℚ} (h : 0 ≤ q) : 0 ≤ goTruncToInt q := by
  simp only [goTruncToInt, if_pos h]
  exact Int.floor_nonneg.mpr h

theorem le_goTruncToInt_of_nonpos {q : ℚ} (h : q < 0) :
    q ≤ (goTruncToInt q : ℚ) := by
  simp only [goTruncToInt, if_neg (not_le.mpr h)]
  exact_mod_cast Int.le_ceil q

theorem goTruncToInt_nonpos {q : ℚ} (h : q < 0) : goTruncToInt q ≤ 0 := by
  simp only [goTruncToInt, if_neg (not_le.mpr h)]
  exact Int.ceil_le.mpr (by exact_mod_cast le_of_lt h)

theorem goTruncToInt_intCast (n : ℤ) : goTruncToInt (n : ℚ) = n := by
  unfold goTruncToInt
  split_ifs <;> simp

theorem zpow_add52 (e : ℤ) : (2:ℚ) ^ (e + 52) = ((2 ^ 52 : ℤ) : ℚ) * 2 ^ e := by
  rw [zpow_add₀ (by norm_num : (2:ℚ) ≠ 0)]
  norm_num [mul_comm]

theorem qlog2_spec (a : ℚ) (ha : 0 < a) :
    2 ^ qlog2 a ≤ a ∧ a < 2 ^ (qlog2 a + 1) := by
  have hnum : 0 < a.num := Rat.num_pos.mpr ha
  have hdenQ : (0:ℚ) < (a.den : ℚ) := by exact_mod_cast a.pos
  have hna : a.num.natAbs ≠ 0 := (Int.natAbs_pos.mpr hnum.ne').ne'
  have hda : a.den ≠ 0 := a.pos.ne'
  have hcast : ((a.num.natAbs : ℕ) : ℚ) = (a.num : ℚ) := by
    rw [Int.cast_natAbs]
    exact_mod_cast congrArg (fun z : ℤ => (z : ℚ)) (abs_of_pos hnum)
  have hA : (2:ℚ) ^ (Nat.log2 a.num.natAbs) ≤ (a.num : ℚ) := by
    have h := Nat.log2_self_le hna
    calc (2:ℚ) ^ Nat.log2 a.num.natAbs = ((2 ^ Nat.log2 a.num.natAbs : ℕ) : ℚ) := by
          push_cast; ring
      _ ≤ ((a.num.natAbs : ℕ) : ℚ) := by exact_mod_cast h
      _ = (a.num : ℚ) := hcast
  have hB : (a.num : ℚ) < 2 ^ (Nat.log2 a.num.natAbs + 1) := by
    have h := Nat.lt_log2_self (n := a.num.natAbs)
    calc (a.num : ℚ) = ((a.num.natAbs : ℕ) : ℚ) := hcast.symm
      _ < ((2 ^ (Nat.log2 a.num.natAbs + 1) : ℕ) : ℚ) := by exact_mod_cast h
      _ = 2 ^ (Nat.log2 a.num.natAbs + 1) := by push_cast; ring
  have hC : (2:ℚ) ^ (Nat.log2 a.den) ≤ (a.den : ℚ) := by
    have h := Nat.log2_self_le hda
    calc (2:ℚ) ^ Nat.log2 a.den = ((2 ^ Nat.log2 a.den : ℕ) : ℚ) := by push_cast; ring
      _ ≤ ((a.den : ℕ) : ℚ) := by exact_mod_cast h
  have hD : (a.den : ℚ) < 2 ^ (Nat.log2 a.den + 1) := by
    have h := Nat.lt_log2_self (n := a.den)
    calc (a.den : ℚ) < ((2 ^ (Nat.log2 a.den + 1) : ℕ) : ℚ) := by exact_mod_cast h
      _ = 2 ^ (Nat.log2 a.den + 1) := by push_cast; ring
  have haq : a = (a.num : ℚ) / (a.den : ℚ) := (Rat.num_div_den a).symm
  have hzA : (2:ℚ) ^ ((Nat.log2 a.num.natAbs : ℤ)) ≤ (a.num : ℚ) := by
    rw [zpow_natCast]; exact hA
  have hzB : (a.num : ℚ) < 2 ^ ((Nat.log2 a.num.natAbs : ℤ) + 1) := by
    rw [show (Nat.log2 a.num.natAbs : ℤ) + 1 = ((Nat.log2 a.num.natAbs + 1 : ℕ) : ℤ) by
      push_cast; ring, zpow_natCast]
    exact hB
  have hzC : (2:ℚ) ^ ((Nat.log2 a.den : ℤ)) ≤ (a.den : ℚ) := by
    rw [zpow_natCast]; exact hC
  have hzD : (a.den : ℚ) < 2 ^ ((Nat.log2 a.den : ℤ) + 1) := by
    rw [show (Nat.log2 a.den : ℤ) + 1 = ((Nat.log2 a.den + 1 : ℕ) : ℤ) by
      push_cast; ring, zpow_natCast]
    exact hD
  have hupper : a < 2 ^ ((Nat.log2 a.num.natAbs : ℤ) - (Nat.log2 a.den : ℤ) + 1) := by
    conv_lhs => rw [haq]
    rw [div_lt_iff hdenQ]
    calc (a.num : ℚ) < 2 ^ ((Nat.log2 a.num.natAbs : ℤ) + 1) := hzB
      _ = 2 ^ ((Nat.log2 a.num.natAbs : ℤ) - (Nat.log2 a.den : ℤ) + 1) *
            2 ^ ((Nat.log2 a.den : ℤ)) := by
          rw [← zpow_add₀ (by norm_num : (2:ℚ) ≠ 0)]
          congr 1
          ring
      _ ≤ 2 ^ ((Nat.log2 a.num.natAbs : ℤ) - (Nat.log2 a.den : ℤ) + 1) * (a.den : ℚ) := by
          exact mul_le_mul_of_nonneg_left hzC (by positivity)
  have hlower : 2 ^ ((Nat.log2 a.num.natAbs : ℤ) - (Nat.log2 a.den : ℤ) - 1) < a := by
    conv_rhs => rw [haq]
    rw [lt_div_iff hdenQ]
    calc 2 ^ ((Nat.log2 a.num.natAbs : ℤ) - (Nat.log2 a.den : ℤ) - 1) * (a.den : ℚ)
        < 2 ^ ((Nat.log2 a.num.natAbs : ℤ) - (Nat.log2 a.den : ℤ) - 1) *
            2 ^ ((Nat.log2 a.den : ℤ) + 1) := by
          exact mul_lt_mul_of_pos_left hzD (by positivity)
      _ = 2 ^ ((Nat.log2 a.num.natAbs : ℤ)) := by
          rw [← zpow_add₀ (by norm_num : (2:ℚ) ≠ 0)]
          congr 1
          ring
      _ ≤ (a.num : ℚ) := hzA
  simp only [qlog2]
  split_ifs with hcase
  · constructor
    · exact le_of_lt hlower
    · rw [show (Nat.log2 a.num.natAbs : ℤ) - (Nat.log2 a.den : ℤ) - 1 + 1
          = (Nat.log2 a.num.natAbs : ℤ) - (Nat.log2 a.den : ℤ) by ring]
      exact hcase
  · exact ⟨not_lt.mp hcase, hupper⟩

theorem qlog2_eq (a : ℚ) (E : ℤ) (ha : 0 < a) (h1 : 2 ^ E ≤ a)
    (h2 : a < 2 ^ (E + 1)) : qlog2 a = E := by
  obtain ⟨hs1, hs2⟩ := qlog2_spec a ha
  by_contra hne
  rcases lt_or_gt_of_ne hne with hlt | hgt
  · have : (2:ℚ) ^ (qlog2 a + 1) ≤ 2 ^ E := zpow_le_zpow_right₀ one_le_two (by omega)
    linarith
  · have : (2:ℚ) ^ (E + 1) ≤ 2 ^ (qlog2 a) := zpow_le_zpow_right₀ one_le_two (by omega)
    linarith

theorem rne_intCast (n : ℤ) : rne (n : ℚ) = n := by
  norm_num [rne]

theorem le_rne_of_le (n : ℤ) (x : ℚ) (h : (n : ℚ) ≤ x) : n ≤ rne x := by
  have h1 : n ≤ ⌊x⌋ := Int.le_floor.mpr h
  simp only [rne]
  split_ifs <;> omega

theorem rne_le_of_le (n : ℤ) (x : ℚ) (h : x ≤ (n : ℚ)) : rne x ≤ n := by
  have h1 : ⌊x⌋ ≤ n := by
    have := Int.floor_le_floor h
    simpa using this
  have h2 : ¬(x - ⌊x⌋ < 1/2) → ⌊x⌋ + 1 ≤ n := by
    intro hf
    have hx : (⌊x⌋ : ℚ) < x := by
      rcases lt_or_eq_of_le (Int.floor_le x) with hlt | heq
      · exact hlt
      · exfalso
        apply hf
        rw [← heq]
        norm_num
    rcases lt_or_eq_of_le h1 with hlt | heq
    · omega
    · exfalso
      rw [heq] at hx
      exact absurd (lt_of_lt_of_le hx h) (lt_irrefl _)
  simp only [rne]
  split_ifs with hf1 hf2 hf3
  · exact h1
  · exact h2 hf1
  · exact h1
  · exact h2 hf1

theorem rne_neg (x : ℚ) : rne (-x) = -rne x := by
  rcases lt_or_eq_of_le (Int.floor_le x) with hlt | heq
  · have hfl : ⌈x⌉ = ⌊x⌋ + 1 := by
      have hle := Int.ceil_le_floor_add_one x
      have hgt : ⌊x⌋ < ⌈x⌉ := Int.lt_ceil.mpr hlt
      omega
    have hfneg : ⌊-x⌋ = -⌊x⌋ - 1 := by
      rw [Int.floor_neg, hfl]
      ring
    have hub : x < ⌊x⌋ + 1 := Int.lt_floor_add_one x
    simp only [rne, hfneg]
    push_cast
    split_ifs <;> push_cast at * <;> first | omega | linarith
  · have hx : x = ((⌊x⌋ : ℤ) : ℚ) := heq.symm
    rw [hx, ← Int.cast_neg, rne_intCast, rne_intCast]

theorem fl_neg (x : ℚ) : fl (-x) = -fl x := by
  by_cases hx : x = 0
  · simp [hx, fl]
  · have hnx : -x ≠ 0 := neg_ne_zero.mpr hx
    simp only [fl, if_neg hx, if_neg hnx, abs_neg]
    rw [neg_div, rne_neg]
    push_cast
    ring

theorem Rep_neg {c : ℚ} (hc : Rep c) : Rep (-c) := by
  obtain ⟨m, E, rfl, hm⟩ := hc
  exact ⟨-m, E, by push_cast; ring, by simpa using hm⟩

theorem fl_ge {c x : ℚ} (hc : Rep c) (h : c ≤ x) : c ≤ fl x := by
  by_cases hx0 : x = 0
  · subst hx0
    simp only [fl, if_pos rfl]
    exact h
  · obtain ⟨m, E, hcdef, hm⟩ := hc
    simp only [fl, if_neg hx0]
    obtain ⟨hq1, hq2⟩ := qlog2_spec |x| (abs_pos.mpr hx0)
    set e : ℤ := qlog2 |x| - 52 with he
    have h2e : (0:ℚ) < 2 ^ e := by positivity
    have hlow : (2:ℚ) ^ (e + 52) ≤ |x| := by
      rw [show e + 52 = qlog2 |x| by omega]
      exact hq1
    have hupp : |x| < 2 ^ (e + 53) := by
      rw [show e + 53 = qlog2 |x| + 1 by omega]
      exact hq2
    by_cases hEe : e ≤ E
    · have hEe' : ((E - e).toNat : ℤ) = E - e := Int.toNat_of_nonneg (by omega)
      have hcast2 : ((m * 2 ^ (E - e).toNat : ℤ) : ℚ)
          = (m : ℚ) * 2 ^ ((E - e).toNat : ℤ) := by
        push_cast
        rw [zpow_natCast]
      have hker : c / 2 ^ e = ((m * 2 ^ (E - e).toNat : ℤ) : ℚ) := by
        rw [hcdef, hcast2, hEe', div_eq_iff (ne_of_gt h2e), mul_assoc,
          ← zpow_add₀ (by norm_num : (2:ℚ) ≠ 0),
          show E - e + e = E by ring]
      have hle2 : ((m * 2 ^ (E - e).toNat : ℤ) : ℚ) ≤ x / 2 ^ e := by
        rw [← hker]
        exact div_le_div_of_nonneg_right h h2e.le
      have hrne := le_rne_of_le _ _ hle2
      calc c = c / 2 ^ e * 2 ^ e := by field_simp
        _ = ((m * 2 ^ (E - e).toNat : ℤ) : ℚ) * 2 ^ e := by rw [hker]
        _ ≤ (rne (x / 2 ^ e) : ℚ) * 2 ^ e :=
            mul_le_mul_of_nonneg_right (by exact_mod_cast hrne) h2e.le
    · push_neg at hEe
      have hcabs : |c| ≤ ((2 ^ 53 : ℤ) : ℚ) * 2 ^ E := by
        rw [hcdef, abs_mul, abs_of_pos (show (0:ℚ) < 2 ^ E by positivity)]
        have hmq : |(m:ℚ)| ≤ ((2 ^ 53 : ℤ) : ℚ) := by exact_mod_cast hm
        exact mul_le_mul_of_nonneg_right hmq (by positivity)
      have h53E : ((2 ^ 53 : ℤ) : ℚ) * 2 ^ E = 2 ^ (E + 53) := by
        rw [zpow_add₀ (by norm_num : (2:ℚ) ≠ 0)]
        norm_num [mul_comm]
      have hmono : (2:ℚ) ^ (E + 53) ≤ 2 ^ (e + 52) :=
        zpow_le_zpow_right₀ one_le_two (by omega)
      rcases lt_trichotomy x 0 with hneg | hzero | hpos
      · have hxle : x ≤ -(2 ^ (e + 52)) := by
          have habs : |x| = -x := abs_of_neg hneg
          linarith
        have hcge : -((2:ℚ) ^ (e + 52)) ≤ c := by
          have h1 : -((2:ℚ) ^ (E + 53)) ≤ c := by
            have h2 := neg_abs_le c
            rw [h53E] at hcabs
            linarith
          linarith
        have hxeq : x = -(2 ^ (e + 52)) := le_antisymm hxle (by linarith)
        have hceq : c = x := le_antisymm h (by rw [hxeq]; exact hcge)
        have hdiv : x / 2 ^ e = ((-(2 ^ 52) : ℤ) : ℚ) := by
          rw [hxeq, div_eq_iff (ne_of_gt h2e), zpow_add52]
          push_cast
          ring
        rw [hdiv, rne_intCast, hceq, hxeq, zpow_add52]
        push_cast
        ring_nf
        exact le_refl _
      · exact absurd hzero hx0
      · have hxlow : (2:ℚ) ^ (e + 52) ≤ x := by
          rwa [abs_of_pos hpos] at hlow
        have hscaled : ((2 ^ 52 : ℤ) : ℚ) ≤ x / 2 ^ e := by
          rw [le_div_iff h2e, ← zpow_add52]
          exact hxlow
        have hrne := le_rne_of_le _ _ hscaled
        have hflx : (2:ℚ) ^ (e + 52) ≤ (rne (x / 2 ^ e) : ℚ) * 2 ^ e := by
          rw [zpow_add52]
          exact mul_le_mul_of_nonneg_right (by exact_mod_cast hrne) h2e.le
        have hcb : c ≤ 2 ^ (e + 52) := by
          calc c ≤ |c| := le_abs_self c
            _ ≤ 2 ^ (E + 53) := by rw [← h53E]; exact hcabs
            _ ≤ 2 ^ (e + 52) := hmono
        linarith

theorem fl_le {c x : ℚ} (hc : Rep c) (h : x ≤ c) : fl x ≤ c := by
  have := fl_ge (Rep_neg hc) (neg_le_neg h)
  rw [fl_neg] at this
  linarith

theorem fl_rep {c : ℚ} (hc : Rep c) : fl c = c :=
  le_antisymm (fl_le hc le_rfl) (fl_ge hc le_rfl)

theorem wrap64_eq_self (z : ℤ) (h1 : -(2 ^ 63) ≤ z) (h2 : z < 2 ^ 63) :
    wrap64 z = z := by
  unfold wrap64
  rw [Int.emod_eq_of_lt (by omega) (by omega)]
  omega

/-- C5 (amended): for every duration `d` between 0 and `2^53` ns (the
range in which `float64` represents the duration exactly; about 104
days) and every draw `r` of `rand.Float64()` (so `0 ≤ r < 1`),
`addJitter d r` lies in the closed interval `[0.75*d, 1.25*d]`.  For
larger `d` the claim fails: the `float64(delay)` conversion rounds, and
near `MaxInt64` the final addition wraps (see the counterexample). -/
theorem addJitter_bounds_amended (d : ℤ) (r : ℚ) (hd0 : 0 ≤ d)
    (hd1 : d ≤ 2 ^ 53) (hr0 : 0 ≤ r) (hr1 : r < 1) :
    (3/4 : ℚ) * d ≤ (addJitter d r : ℚ) ∧ (addJitter d r : ℚ) ≤ (5/4 : ℚ) * d := by
  have hdq0 : (0:ℚ) ≤ (d:ℚ) := by exact_mod_cast hd0
  have hdq1 : (d:ℚ) ≤ ((2 ^ 53 : ℤ) : ℚ) := by exact_mod_cast hd1
  have habsd : |d| ≤ 2 ^ 53 := by
    rw [abs_of_nonneg hd0]
    exact hd1
  have hRep0 : Rep 0 := ⟨0, 0, by norm_num, by norm_num⟩
  have hRep2 : Rep 2 := ⟨2, 0, by norm_num, by norm_num⟩
  have hRep1 : Rep 1 := ⟨1, 0, by norm_num, by norm_num⟩
  have hRepm1 : Rep (-1) := ⟨-1, 0, by norm_num, by norm_num⟩
  have hRepq : Rep (1/4) := ⟨1, -2, by norm_num, by norm_num⟩
  have hRepd4 : Rep ((d:ℚ) / 4) := ⟨d, -2, by
    rw [show ((-2 : ℤ)) = -(2:ℤ) by ring]
    norm_num
    ring, habsd⟩
  have ht1l : 0 ≤ fl (2 * r) := fl_ge hRep0 (by linarith)
  have ht1u : fl (2 * r) ≤ 2 := fl_le hRep2 (by linarith)
  have ht2l : -1 ≤ fl (fl (2 * r) - 1) := fl_ge hRepm1 (by linarith)
  have ht2u : fl (fl (2 * r) - 1) ≤ 1 := fl_le hRep1 (by linarith)
  have ht3l : -(1/4 : ℚ) ≤ fl ((1/4 : ℚ) * fl (fl (2 * r) - 1)) :=
    fl_ge (Rep_neg hRepq) (by linarith)
  have ht3u : fl ((1/4 : ℚ) * fl (fl (2 * r) - 1)) ≤ (1/4 : ℚ) :=
    fl_le hRepq (by linarith)
  have hfd : fl (d : ℚ) = (d : ℚ) := fl_rep ⟨d, 0, by norm_num, habsd⟩
  have hjl : -((d:ℚ) / 4) ≤ fl ((d:ℚ) * fl ((1/4 : ℚ) * fl (fl (2 * r) - 1))) :=
    fl_ge (Rep_neg hRepd4) (by nlinarith)
  have hju : fl ((d:ℚ) * fl ((1/4 : ℚ) * fl (fl (2 * r) - 1))) ≤ (d:ℚ) / 4 :=
    fl_le hRepd4 (by nlinarith)
  have haj : addJitter d r
      = wrap64 (d + goTruncToInt (fl ((d:ℚ) * fl ((1/4 : ℚ) * fl (fl (2 * r) - 1))))) := by
    simp only [addJitter, hfd]
  have htr : -((d:ℚ) / 4) ≤ (goTruncToInt (fl ((d:ℚ) * fl ((1/4 : ℚ) * fl (fl (2 * r) - 1)))) : ℚ) ∧
      (goTruncToInt (fl ((d:ℚ) * fl ((1/4 : ℚ) * fl (fl (2 * r) - 1)))) : ℚ) ≤ (d:ℚ) / 4 := by
    rcases le_or_lt 0 (fl ((d:ℚ) * fl ((1/4 : ℚ) * fl (fl (2 * r) - 1)))) with hjpos | hjneg
    · have h1 := goTruncToInt_le_self_of_nonneg hjpos
      have h2 : (0:ℚ) ≤ (goTruncToInt (fl ((d:ℚ) * fl ((1/4 : ℚ) * fl (fl (2 * r) - 1)))) : ℚ) := by
        exact_mod_cast goTruncToInt_nonneg hjpos
      constructor <;> linarith
    · have h1 := le_goTruncToInt_of_nonpos hjneg
      have h2 : (goTruncToInt (fl ((d:ℚ) * fl ((1/4 : ℚ) * fl (fl (2 * r) - 1)))) : ℚ) ≤ 0 := by
        exact_mod_cast goTruncToInt_nonpos hjneg
      constructor <;> linarith
  obtain ⟨htrl, htru⟩ := htr
  have hsum_l : (3/4 : ℚ) * d
      ≤ ((d + goTruncToInt (fl ((d:ℚ) * fl ((1/4 : ℚ) * fl (fl (2 * r) - 1)))) : ℤ) : ℚ) := by
    push_cast
    linarith
  have hsum_u : ((d + goTruncToInt (fl ((d:ℚ) * fl ((1/4 : ℚ) * fl (fl (2 * r) - 1)))) : ℤ) : ℚ)
      ≤ (5/4 : ℚ) * d := by
    push_cast
    linarith
  have hw : wrap64 (d + goTruncToInt (fl ((d:ℚ) * fl ((1/4 : ℚ) * fl (fl (2 * r) - 1)))))
      = d + goTruncToInt (fl ((d:ℚ) * fl ((1/4 : ℚ) * fl (fl (2 * r) - 1)))) := by
    apply wrap64_eq_self
    · have : (0:ℚ) ≤ ((d + goTruncToInt (fl ((d:ℚ) * fl ((1/4 : ℚ) * fl (fl (2 * r) - 1)))) : ℤ) : ℚ) := by
        linarith
      have h0 : (0:ℤ) ≤ d + goTruncToInt (fl ((d:ℚ) * fl ((1/4 : ℚ) * fl (fl (2 * r) - 1)))) := by
        exact_mod_cast this
      omega
    · have h5 : ((d + goTruncToInt (fl ((d:ℚ) * fl ((1/4 : ℚ) * fl (fl (2 * r) - 1)))) : ℤ) : ℚ)
          < ((2 ^ 63 : ℤ) : ℚ) := by
        have hnum : (5/4 : ℚ) * ((2 ^ 53 : ℤ) : ℚ) < ((2 ^ 63 : ℤ) : ℚ) := by
          push_cast
          norm_num
        have hd5 : (5/4 : ℚ) * (d:ℚ) ≤ (5/4 : ℚ) * ((2 ^ 53 : ℤ) : ℚ) :=
          mul_le_mul_of_nonneg_left hdq1 (by norm_num)
        linarith
      exact_mod_cast h5
  rw [haj, hw]
  exact ⟨hsum_l, hsum_u⟩

/-- Witness for `addJitter_bounds_amended` at `d = 4` ns, `r = 1/2`. -/
theorem addJitter_bounds_amended_witness :
    (3/4 : ℚ) * (4 : ℤ) ≤ ((addJitter 4 (1/2) : ℤ) : ℚ) ∧
      ((addJitter 4 (1/2) : ℤ) : ℚ) ≤ (5/4 : ℚ) * (4 : ℤ) :=
  addJitter_bounds_amended 4 (1/2) (by norm_num) (by norm_num) (by norm_num)
    (by norm_num)

/-- C5 counterexample: at `d = 2^53 + 3` ns (a non-negative duration)
and draw `r = 0`, the conversion `float64(delay)` rounds `d` up to
`2^53 + 4` (ties to even), the jitter computed is `-(2^51 + 1)` — one
nanosecond more than a quarter of `d` — and the result `0.75*d - 1/4`
falls strictly below the claimed closed interval `[0.75*d, 1.25*d]`. -/
theorem addJitter_bounds_counterexample :
    ¬ ((3/4 : ℚ) * ((2 ^ 53 + 3 : ℤ) : ℚ) ≤ ((addJitter (2 ^ 53 + 3) 0 : ℤ) : ℚ) ∧
        ((addJitter (2 ^ 53 + 3) 0 : ℤ) : ℚ) ≤ (5/4 : ℚ) * ((2 ^ 53 + 3 : ℤ) : ℚ)) := by
  have ht1 : fl (2 * (0:ℚ)) = 0 := by
    norm_num [fl]
  have ht2 : fl ((0:ℚ) - 1) = -1 := by
    rw [show (0:ℚ) - 1 = -1 by ring]
    exact fl_rep ⟨-1, 0, by norm_num, by norm_num⟩
  have ht3 : fl ((1/4 : ℚ) * (-1)) = -(1/4 : ℚ) := by
    rw [show (1/4 : ℚ) * (-1) = -(1/4) by ring]
    exact fl_rep ⟨-1, -2, by
      rw [show ((-2 : ℤ)) = -(2:ℤ) by ring]
      norm_num, by norm_num⟩
  have hqd : qlog2 |((2 ^ 53 + 3 : ℤ) : ℚ)| = 53 := by
    rw [show |((2 ^ 53 + 3 : ℤ) : ℚ)| = ((2 ^ 53 + 3 : ℤ) : ℚ) from
      abs_of_pos (by norm_num)]
    apply qlog2_eq _ _ (by norm_num)
    · rw [show (53:ℤ) = ((53:ℕ):ℤ) by norm_num, zpow_natCast]
      norm_num
    · rw [show (53:ℤ) + 1 = ((54:ℕ):ℤ) by norm_num, zpow_natCast]
      norm_num
  have hfloor : ⌊((2 ^ 53 + 3 : ℤ) : ℚ) / 2 ^ (1:ℤ)⌋ = 2 ^ 52 + 1 := by
    rw [Int.floor_eq_iff]
    constructor
    · push_cast
      norm_num
    · push_cast
      norm_num
  have hrd : rne (((2 ^ 53 + 3 : ℤ) : ℚ) / 2 ^ (1:ℤ)) = 2 ^ 52 + 2 := by
    simp only [rne, hfloor]
    have hc1 : ¬(((2 ^ 53 + 3 : ℤ) : ℚ) / 2 ^ (1:ℤ) - ((2 ^ 52 + 1 : ℤ) : ℚ) < 1/2) := by
      push_cast
      norm_num
    have hc2 : ¬((1:ℚ)/2 < ((2 ^ 53 + 3 : ℤ) : ℚ) / 2 ^ (1:ℤ) - ((2 ^ 52 + 1 : ℤ) : ℚ)) := by
      push_cast
      norm_num
    have hc3 : ¬((2 ^ 52 + 1 : ℤ) % 2 = 0) := by decide
    rw [if_neg hc1, if_neg hc2, if_neg hc3]
    norm_num
  have hfd : fl ((2 ^ 53 + 3 : ℤ) : ℚ) = (2:ℚ) ^ 53 + 4 := by
    simp only [fl]
    rw [if_neg (by norm_num : ¬((2 ^ 53 + 3 : ℤ) : ℚ) = 0), hqd]
    rw [show (53:ℤ) - 52 = 1 by norm_num, hrd]
    push_cast
    norm_num
  have hjit : fl (((2:ℚ) ^ 53 + 4) * -(1/4 : ℚ)) = ((-(2 ^ 51 + 1) : ℤ) : ℚ) := by
    rw [show ((2:ℚ) ^ 53 + 4) * -(1/4 : ℚ) = ((-(2 ^ 51 + 1) : ℤ) : ℚ) by
      push_cast
      norm_num]
    exact fl_rep ⟨-(2 ^ 51 + 1), 0, by push_cast; norm_num, by norm_num⟩
  have hresult : addJitter (2 ^ 53 + 3) 0 = 2 ^ 53 - 2 ^ 51 + 2 := by
    simp only [addJitter]
    rw [ht1, ht2, ht3, hfd, hjit, goTruncToInt_intCast]
    rw [show (2 ^ 53 + 3 + -(2 ^ 51 + 1) : ℤ) = 2 ^ 53 - 2 ^ 51 + 2 by ring]
    exact wrap64_eq_self _ (by norm_num) (by norm_num)
  rw [hresult]
  intro hcl
  have := hcl.1
  push_cast at this
  norm_num at this

/-! ## File-system model for cmd/fsutil.go

Paths are modelled as (directory, basename) pairs — `filepath.Dir` is the
`dir` projection and `os.CreateTemp(dir, pat)` produces a path in `dir`.
A file system is an association list from paths to entries; lookup does
not follow symbolic links (like `os.Lstat`), while `resolveFile` (used to
model `os.Open` of the source) follows one level of indirection.
File contents are byte lists; permissions are a `Nat` mode. -/

structure FPath where
  dir : String
  base : String
deriving DecidableEq, Repr

inductive FEntry where
  /-- A regular file: its bytes and its permission bits. -/
  | file (content : List Nat) (perm : Nat)
  /-- A symbolic link to a target path. -/
  | symlink (target : FPath)
deriving DecidableEq, Repr

abbrev FSys := List (FPath × FEntry)

def FSys.lookup (fs : FSys) (p : FPath) : Option FEntry :=
  match fs with
  | [] => none
  | (q, e) :: rest => if q = p then some e else FSys.lookup rest p

/-- Remove a path's entry (model of `os.Remove`). -/
def FSys.remove (fs : FSys) (p : FPath) : FSys :=
  match fs with
  | [] => []
  | (q, e) :: rest => if q = p then FSys.remove rest p else (q, e) :: FSys.remove rest p

/-- Set a path's entry, replacing any prior entry at that path. -/
def FSys.set (fs : FSys) (p : FPath) (e : FEntry) : FSys :=
  (p, e) :: FSys.remove fs p

/-- Model of `os.Open` + reading: follows a symlink one level to a file. -/
def FSys.resolveFile (fs : FSys) (p : FPath) : Option (List Nat × Nat) :=
  match FSys.lookup fs p with
  | some (.file c m) => some (c, m)
  | some (.symlink t) =>
    match FSys.lookup fs t with
    | some (.file c m) => some (c, m)
    | _ => none
  | none => none

theorem FSys.lookup_remove_ne (fs : FSys) (p q : FPath) (h : q ≠ p) :
    FSys.lookup (FSys.remove fs p) q = FSys.lookup fs q := by
  induction fs with
  | nil => rfl
  | cons hd tl ih =>
    obtain ⟨r, e⟩ := hd
    by_cases hrp : r = p
    · simp [FSys.remove, FSys.lookup, hrp, Ne.symm h, ih]
    · by_cases hrq : r = q
      · subst hrq
        simp [FSys.remove, FSys.lookup, hrp]
      · simp [FSys.remove, FSys.lookup, hrp, hrq, ih]

theorem FSys.lookup_set_ne (fs : FSys) (p q : FPath) (e : FEntry) (h : q ≠ p) :
    FSys.lookup (FSys.set fs p e) q = FSys.lookup fs q := by
  simp [FSys.set, FSys.lookup, Ne.symm h, FSys.lookup_remove_ne fs p q h]

theorem FSys.lookup_set_self (fs : FSys) (p : FPath) (e : FEntry) :
    FSys.lookup (FSys.set fs p e) p = some e := by
  simp [FSys.set, FSys.lookup]

/-- Environment for a run of the fsutil functions: `ioFail k` injects an
I/O failure (disk full, I/O error, …) into the `k`-th operating-system
call of the run; `tmpSuffix` is the random suffix `os.CreateTemp` picks;
`sameFS` says whether source and destination are on one filesystem
(`os.Rename` fails with `EXDEV` across filesystems). -/
structure IOEnv where
  ioFail : Nat → Bool
  tmpSuffix : String
  sameFS : Bool

/-- The temporary path `os.CreateTemp(filepath.Dir(dst), ".fdo.move_*")`
creates: it lives in the destination's own directory. -/
def carTmpPath (env : IOEnv) (dst : FPath) : FPath :=
  ⟨dst.dir, ".fdo.move_" ++ env.tmpSuffix⟩

/-- Function `copyAndRemove` from cmd/fsutil.go, step by step:
open `src`, stat it, create a temp file in `dst`'s directory, chmod it,
copy the data, sync, close, atomically rename the temp file onto `dst`,
then remove `src`.  On any error after the temp file exists, the deferred
cleanup closes and removes the temp file.  Returns Go's `error` (as an
`Option String` message) and the resulting file system. -/
def copyAndRemove (env : IOEnv) (fs : FSys) (src dst : FPath) :
    Option String × FSys :=
  -- os.Open(src)
  if env.ioFail 0 then (some "error opening source file", fs) else
  match FSys.resolveFile fs src with
  | none => (some "error opening source file", fs)
  | some (data, perm) =>
  -- srcFile.Stat()
  if env.ioFail 1 then (some "error getting source file info", fs) else
  -- os.CreateTemp(filepath.Dir(dst), ".fdo.move_*")
  let tmp := carTmpPath env dst
  if env.ioFail 2 || (FSys.lookup fs tmp).isSome then
    (some "error creating temporary destination file", fs) else
  let fs1 := FSys.set fs tmp (.file [] 0x180)
  -- tmpDst.Chmod(srcInfo.Mode())
  if env.ioFail 3 then (some "error setting permissions", FSys.remove fs1 tmp) else
  let fs2 := FSys.set fs1 tmp (.file [] perm)
  -- io.Copy(tmpDst, srcFile)
  if env.ioFail 4 then (some "error copying file", FSys.remove fs2 tmp) else
  let fs3 := FSys.set fs2 tmp (.file data perm)
  -- tmpDst.Sync()
  if env.ioFail 5 then (some "error syncing destination file", FSys.remove fs3 tmp) else
  -- tmpDst.Close()
  if env.ioFail 6 then (some "error closing destination file", FSys.remove fs3 tmp) else
  -- os.Rename(tmpName, dst): the single atomic replace
  if env.ioFail 7 then (some "error replacing destination file", FSys.remove fs3 tmp) else
  let fs4 := FSys.set (FSys.remove fs3 tmp) dst (.file data perm)
  -- os.Remove(src)
  if env.ioFail 8 then (some "error removing source file after copy", fs4) else
  (none, FSys.remove fs4 src)

/-- The file-system states an uninterrupted `copyAndRemove` run passes
through, indexed by how many file-system-mutating steps have executed:
0 = start, 1 = temp file created, 2 = temp chmodded, 3 = data copied,
4 = temp renamed onto `dst` (the atomic replace), 5 = source removed.
A crash or kill after `k` mutating steps leaves exactly this state (the
deferred cleanup does not run on a crash). -/
def copyAndRemoveStates (env : IOEnv) (fs : FSys) (src dst : FPath)
    (data : List Nat) (perm : Nat) (k : Nat) : FSys :=
  let tmp := carTmpPath env dst
  let fs1 := FSys.set fs tmp (.file [] 0x180)
  let fs2 := FSys.set fs1 tmp (.file [] perm)
  let fs3 := FSys.set fs2 tmp (.file data perm)
  let fs4 := FSys.set (FSys.remove fs3 tmp) dst (.file data perm)
  let fs5 := FSys.remove fs4 src
  match k with
  | 0 => fs
  | 1 => fs1
  | 2 => fs2
  | 3 => fs3
  | 4 => fs4
  | _ => fs5

/-- Function `moveFile` from cmd/fsutil.go: refuse a symlink destination (checked
with `os.Lstat`, which does not follow links), then try `os.Rename`,
falling back to `copyAndRemove` on a cross-filesystem move. -/
def moveFile (env : IOEnv) (fs : FSys) (src dst : FPath) :
    Option String × FSys :=
  -- os.Lstat(dst); a missing entry is IsNotExist and is not an error
  match FSys.lookup fs dst with
  | some (.symlink _) => (some "destination is a symlink", fs)
  | _ =>
    -- os.Rename(src, dst)
    if env.sameFS then
      match FSys.lookup fs src with
      | none => (some "failed to rename: source does not exist", fs)
      | some e => (none, FSys.set (FSys.remove fs src) dst e)
    else
      -- EXDEV: cross-filesystem move, use the copy+remove fallback
      copyAndRemove env fs src dst

theorem lookup_remove_set_set_set (fs : FSys) (tmp q : FPath)
    (a b c : FEntry) (h : q ≠ tmp) :
    FSys.lookup (FSys.remove (FSys.set (FSys.set (FSys.set fs tmp a) tmp b) tmp c) tmp) q
      = FSys.lookup fs q := by
  rw [FSys.lookup_remove_ne _ _ _ h, FSys.lookup_set_ne _ _ _ _ h,
    FSys.lookup_set_ne _ _ _ _ h, FSys.lookup_set_ne _ _ _ _ h]

theorem lookup_remove_set_set (fs : FSys) (tmp q : FPath)
    (a b : FEntry) (h : q ≠ tmp) :
    FSys.lookup (FSys.remove (FSys.set (FSys.set fs tmp a) tmp b) tmp) q
      = FSys.lookup fs q := by
  rw [FSys.lookup_remove_ne _ _ _ h, FSys.lookup_set_ne _ _ _ _ h,
    FSys.lookup_set_ne _ _ _ _ h]

theorem lookup_remove_set (fs : FSys) (tmp q : FPath) (a : FEntry) (h : q ≠ tmp) :
    FSys.lookup (FSys.remove (FSys.set fs tmp a) tmp) q = FSys.lookup fs q := by
  rw [FSys.lookup_remove_ne _ _ _ h, FSys.lookup_set_ne _ _ _ _ h]

/-- C2: the credential-save replace step (`copyAndRemove`) is atomic.
Given a prior credential at `dst` and a fresh temp name: (a) an
uninterrupted failure-free run is exactly the state sequence
`copyAndRemoveStates`; (b) the temp file lives in the destination's own
directory; (c) after any prefix of mutating steps up to and including the
data copy — i.e., any interruption before the single atomic replace — the
destination still holds the prior credential bytes, so a load returns the
pre-interruption credential; (d) the state right after the rename step
holds the new content (the rename alone publishes it); (e) a run in which
some OS call at or before the rename fails returns an error and leaves
the prior credential at `dst` intact. -/
theorem copyAndRemove_atomic (env : IOEnv) (fs : FSys) (src dst : FPath)
    (data oldData : List Nat) (perm oldPerm : Nat)
    (hdst : FSys.lookup fs dst = some (.file oldData oldPerm))
    (hfresh : FSys.lookup fs (carTmpPath env dst) = none) :
    ((∀ k, k ≤ 8 → env.ioFail k = false) →
      FSys.resolveFile fs src = some (data, perm) →
      copyAndRemove env fs src dst
        = (none, copyAndRemoveStates env fs src dst data perm 5)) ∧
    (carTmpPath env dst).dir = dst.dir ∧
    (∀ k, k ≤ 3 →
      FSys.lookup (copyAndRemoveStates env fs src dst data perm k) dst
        = some (.file oldData oldPerm)) ∧
    FSys.lookup (copyAndRemoveStates env fs src dst data perm 4) dst
      = some (.file data perm) ∧
    ((∃ k, k ≤ 7 ∧ env.ioFail k = true) →
      (copyAndRemove env fs src dst).1.isSome = true ∧
      FSys.lookup (copyAndRemove env fs src dst).2 dst
        = some (.file oldData oldPerm)) := by
  have hne : dst ≠ carTmpPath env dst := by
    intro h
    rw [h, hfresh] at hdst
    exact Option.noConfusion hdst
  refine ⟨?_, rfl, ?_, ?_, ?_⟩
  · intro hok hres
    have h0 := hok 0 (by omega)
    have h1 := hok 1 (by omega)
    have h2 := hok 2 (by omega)
    have h3 := hok 3 (by omega)
    have h4 := hok 4 (by omega)
    have h5 := hok 5 (by omega)
    have h6 := hok 6 (by omega)
    have h7 := hok 7 (by omega)
    have h8 := hok 8 (by omega)
    simp [copyAndRemove, copyAndRemoveStates, h0, h1, h2, h3, h4, h5, h6, h7,
      h8, hres, hfresh]
  · intro k hk
    interval_cases k
    · simpa [copyAndRemoveStates] using hdst
    · simpa [copyAndRemoveStates, FSys.lookup_set_ne _ _ _ _ hne] using hdst
    · simpa [copyAndRemoveStates, FSys.lookup_set_ne _ _ _ _ hne] using hdst
    · simpa [copyAndRemoveStates, FSys.lookup_set_ne _ _ _ _ hne] using hdst
  · simp [copyAndRemoveStates, FSys.lookup_set_self]
  · intro hpre
    by_cases h0 : env.ioFail 0
    · simp [copyAndRemove, h0, hdst]
    · rcases hres : FSys.resolveFile fs src with _ | ⟨data', perm'⟩
      · simp [copyAndRemove, h0, hres, hdst]
      · by_cases h1 : env.ioFail 1
        · simp [copyAndRemove, h0, hres, h1, hdst]
        · by_cases h2 : env.ioFail 2
          · simp [copyAndRemove, h0, hres, h1, h2, hdst]
          · by_cases h3 : env.ioFail 3
            · simp [copyAndRemove, h0, hres, h1, h2, h3, hfresh,
                lookup_remove_set _ _ _ _ hne, hdst]
            · by_cases h4 : env.ioFail 4
              · simp [copyAndRemove, h0, hres, h1, h2, h3, h4, hfresh,
                  lookup_remove_set_set _ _ _ _ _ hne, hdst]
              · by_cases h5 : env.ioFail 5
                · simp [copyAndRemove, h0, hres, h1, h2, h3, h4, h5, hfresh,
                    lookup_remove_set_set_set _ _ _ _ _ _ hne, hdst]
                · by_cases h6 : env.ioFail 6
                  · simp [copyAndRemove, h0, hres, h1, h2, h3, h4, h5, h6,
                      hfresh, lookup_remove_set_set_set _ _ _ _ _ _ hne, hdst]
                  · by_cases h7 : env.ioFail 7
                    · simp [copyAndRemove, h0, hres, h1, h2, h3, h4, h5, h6,
                        h7, hfresh, lookup_remove_set_set_set _ _ _ _ _ _ hne,
                        hdst]
                    · exfalso
                      obtain ⟨k, hk, hfail⟩ := hpre
                      interval_cases k <;> simp_all

/-- Witness for `copyAndRemove_atomic`: a concrete store holding a prior
credential at `/data/cred.bin`, a fresh temp suffix, and a failure
injected at the copy step (OS call 4). -/
theorem copyAndRemove_atomic_witness :
    (FSys.lookup
        (copyAndRemoveStates ⟨fun k => k == 4, "X", false⟩
          [(⟨"/data", "cred.bin"⟩, .file [7, 7] 384),
           (⟨"/tmp", "new"⟩, .file [9] 384)]
          ⟨"/tmp", "new"⟩ ⟨"/data", "cred.bin"⟩ [9] 384 3)
        ⟨"/data", "cred.bin"⟩ = some (.file [7, 7] 384)) ∧
    (FSys.lookup
        (copyAndRemove ⟨fun k => k == 4, "X", false⟩
          [(⟨"/data", "cred.bin"⟩, .file [7, 7] 384),
           (⟨"/tmp", "new"⟩, .file [9] 384)]
          ⟨"/tmp", "new"⟩ ⟨"/data", "cred.bin"⟩).2
        ⟨"/data", "cred.bin"⟩ = some (.file [7, 7] 384)) := by
  have h := copyAndRemove_atomic ⟨fun k => k == 4, "X", false⟩
    [(⟨"/data", "cred.bin"⟩, .file [7, 7] 384),
     (⟨"/tmp", "new"⟩, .file [9] 384)]
    ⟨"/tmp", "new"⟩ ⟨"/data", "cred.bin"⟩ [9] [7, 7] 384 384
    (by rfl) (by rfl)
  exact ⟨h.2.2.1 3 (by omega), (h.2.2.2.2 ⟨4, by omega, by rfl⟩).2⟩

/-- C3: `moveFile` (the credential-save replace step) refuses a
destination that is currently a symbolic link: it fails with an error,
the file system is unchanged, so the link's target content is untouched
and the source file still exists. -/
theorem moveFile_refuses_symlink (env : IOEnv) (fs : FSys) (src dst t : FPath)
    (h : FSys.lookup fs dst = some (.symlink t)) :
    (moveFile env fs src dst).1.isSome = true ∧
    (moveFile env fs src dst).2 = fs ∧
    FSys.lookup (moveFile env fs src dst).2 t = FSys.lookup fs t ∧
    FSys.lookup (moveFile env fs src dst).2 src = FSys.lookup fs src := by
  simp [moveFile, h]

/-- Witness for `moveFile_refuses_symlink`: the destination is a symlink
pointing at a protected file. -/
theorem moveFile_refuses_symlink_witness :
    (moveFile ⟨fun _ => false, "X", true⟩
        [(⟨"/data", "cred.bin"⟩, .symlink ⟨"/etc", "victim"⟩),
         (⟨"/etc", "victim"⟩, .file [1, 2] 384),
         (⟨"/tmp", "new"⟩, .file [9] 384)]
        ⟨"/tmp", "new"⟩ ⟨"/data", "cred.bin"⟩).1.isSome = true ∧
    (moveFile ⟨fun _ => false, "X", true⟩
        [(⟨"/data", "cred.bin"⟩, .symlink ⟨"/etc", "victim"⟩),
         (⟨"/etc", "victim"⟩, .file [1, 2] 384),
         (⟨"/tmp", "new"⟩, .file [9] 384)]
        ⟨"/tmp", "new"⟩ ⟨"/data", "cred.bin"⟩).2 =
      [(⟨"/data", "cred.bin"⟩, .symlink ⟨"/etc", "victim"⟩),
       (⟨"/etc", "victim"⟩, .file [1, 2] 384),
       (⟨"/tmp", "new"⟩, .file [9] 384)] := by
  have h := moveFile_refuses_symlink ⟨fun _ => false, "X", true⟩
    [(⟨"/data", "cred.bin"⟩, .symlink ⟨"/etc", "victim"⟩),
     (⟨"/etc", "victim"⟩, .file [1, 2] 384),
     (⟨"/tmp", "new"⟩, .file [9] 384)]
    ⟨"/tmp", "new"⟩ ⟨"/data", "cred.bin"⟩ ⟨"/etc", "victim"⟩ (by rfl)
  exact ⟨h.1, h.2.1⟩

/-! ## Orchestrator model (cmd/onboard.go)

`transferOwnership`, `getOwnerURLs` and `applyDelay` are embedded with
the network, the random source and the run-scoped context represented by
oracles: the `k`-th TO1 call, TO2 call, delay wait and random draw of a
run consume index `k` of the corresponding oracle.  Directives are the
output of the library collaborator `protocol.ParseDeviceRvInfo` and are
taken as input.  Each run also records the network calls and completed
waits it performs, as a list of events. -/

inductive TransportProtocol where
  | tcp | tls | http | coap | https
deriving DecidableEq, Repr

/-- One `RvTO2Addr` entry of the to1d payload: optional DNS name,
optional IP address (as rendered by `IPAddress.String()`), port
(`uint16`, 0 = use the scheme default) and transport protocol. -/
structure RvTO2Addr where
  dns : Option String
  ip : Option String
  port : Nat
  transport : TransportProtocol
deriving DecidableEq, Repr

/-- The signed TO1 statement; only its `Payload.Val.RV` address list is
inspected by the client. -/
structure To1d where
  rv : List RvTO2Addr
deriving DecidableEq, Repr

/-- Structure `protocol.RvDirective`: candidate URLs, delay (`time.Duration`
nanoseconds) and the RV-bypass flag. -/
structure RvDirective where
  urls : List String
  delay : ℤ
  bypass : Bool
deriving DecidableEq, Repr

/-- Replacement device credential returned by a successful TO2; opaque
to the orchestrator. -/
abbrev DeviceCredential := Nat

abbrev ErrMsg := String

/-- The oracles of one run. `to1 k` is the result of the `k`-th TO1
network call (`none` = error), `to2 k` the `(newDC, err)` pair returned
by the `k`-th `transferOwnership2` call, `cancelledAt k` whether the
run-scoped context is done when the `k`-th delay wait starts, and
`rand k` the `k`-th `rand.Float64()` draw. -/
structure NetEnv where
  to1 : Nat → Option To1d
  to2 : Nat → Option DeviceCredential × Option ErrMsg
  resolvableDNS : String → Bool
  validIP : String → Bool
  rand : Nat → ℚ
  cancelledAt : Nat → Bool

/-- The configuration the orchestrator reads:
`onboardConfig.Onboard.TO2RetryDelay`. -/
structure OrchConfig where
  to2RetryDelay : ℤ

/-- Oracle cursors of a run: how many TO1 calls, TO2 calls, delay waits
and random draws have happened so far. -/
structure OrchState where
  to1C : Nat
  to2C : Nat
  delayC : Nat
  randC : Nat
deriving DecidableEq, Repr

/-- Observable actions of a run: network calls and completed waits. -/
inductive Event where
  | to1Attempt (url : String)
  | to2Attempt (url : String)
  | wait (d : ℤ)
deriving DecidableEq, Repr

/-- The error `ctx.Err()` yields after cancellation
(`context.Canceled`). -/
def ctxCanceled : ErrMsg := "context canceled"

/-- Function `applyDelay` from cmd/onboard.go: wait for the duration, aborting
with the context error if the context is done; a completed wait is
recorded as a `wait` event. -/
def applyDelayM (env : NetEnv) (st : OrchState) (d : ℤ) :
    Option ErrMsg × OrchState × List Event :=
  if env.cancelledAt st.delayC then
    (some ctxCanceled, { st with delayC := st.delayC + 1 }, [])
  else
    (none, { st with delayC := st.delayC + 1 }, [Event.wait d])

/-- The TO1 loop of `getOwnerURLs`: try each URL in order, stop at the
first success; if every attempt fails the result is `none`. -/
def tryTO1 (env : NetEnv) : Nat → List String → Option To1d × Nat × List Event
  | c, [] => (none, c, [])
  | c, u :: rest =>
    match env.to1 c with
    | some t => (some t, c + 1, [Event.to1Attempt u])
    | none =>
      let r := tryTO1 env (c + 1) rest
      (r.1, r.2.1, Event.to1Attempt u :: r.2.2)

/-- Model of `net.JoinHostPort`. -/
def joinHostPort (host port : String) : String :=
  if host.contains ':' then "[" ++ host ++ "]:" ++ port
  else host ++ ":" ++ port

/-- The scheme/default-port switch on `to2Addr.TransportProtocol`;
`none` is the `default:` branch (unsupported transport, entry skipped). -/
def schemePort : TransportProtocol → Option (String × String)
  | .http => some ("http://", "80")
  | .https => some ("https://", "443")
  | _ => none

/-- URL contributions of one to1d address entry, mirroring the body of
the extraction loop in `getOwnerURLs`: skip if both DNS and IP are
absent, skip unsupported transports, override the default port when the
entry carries one, then add the DNS host if it resolves and the IP host
if it is valid (in that order). -/
def addrURLs (env : NetEnv) (a : RvTO2Addr) : List String :=
  if a.dns.isNone && a.ip.isNone then []
  else
    match schemePort a.transport with
    | none => []
    | some (scheme, defPort) =>
      let port := if a.port ≠ 0 then toString a.port else defPort
      let dnsPart :=
        match a.dns with
        | some d => if env.resolvableDNS d then [scheme ++ joinHostPort d port] else []
        | none => []
      let ipPart :=
        match a.ip with
        | some i => if env.validIP i then [scheme ++ joinHostPort i port] else []
        | none => []
      dnsPart ++ ipPart

/-- The full to1d address-extraction loop: concatenation of each entry's
contributions, in entry order. -/
def extractOwnerURLs (env : NetEnv) : List RvTO2Addr → List String
  | [] => []
  | a :: rest => addrURLs env a ++ extractOwnerURLs env rest

/-- Function `getOwnerURLs` from cmd/onboard.go: on a bypass directive return the
directive's URLs verbatim with no to1d and no network call; otherwise
run the TO1 loop and, on success, expand the statement's addresses. -/
def getOwnerURLs (env : NetEnv) (c : Nat) (d : RvDirective) :
    (List String × Option To1d) × Nat × List Event :=
  if d.bypass then ((d.urls, none), c, [])
  else
    match tryTO1 env c d.urls with
    | (none, c', evs) => (([], none), c', evs)
    | (some t, c', evs) => ((extractOwnerURLs env t.rv, some t), c', evs)

/-- Outcome of a directive pass: a `return dc, err` of the Go function,
or falling through to the next step. -/
inductive StepOut where
  | ret (dc : Option DeviceCredential) (err : Option ErrMsg)
  | next
deriving DecidableEq, Repr

/-- The TO2 loop (step 2 of `transferOwnership`): try each owner URL,
return the credential on success (`newDC != nil`); on failure apply the
configured inter-URL retry delay when not on the last URL, aborting the
whole run if that wait is cancelled. -/
def tryTO2Loop (cfg : OrchConfig) (env : NetEnv) :
    OrchState → List String → StepOut × OrchState × List Event
  | st, [] => (.next, st, [])
  | st, u :: rest =>
    let dcerr := env.to2 st.to2C
    let st1 : OrchState := { st with to2C := st.to2C + 1 }
    if dcerr.1.isSome then
      (.ret dcerr.1 none, st1, [Event.to2Attempt u])
    else if rest ≠ [] ∧ cfg.to2RetryDelay > 0 then
      match applyDelayM env st1 cfg.to2RetryDelay with
      | (some e, st2, _) => (.ret none (some e), st2, [Event.to2Attempt u])
      | (none, st2, evs) =>
        let r := tryTO2Loop cfg env st2 rest
        (r.1, r.2.1, Event.to2Attempt u :: (evs ++ r.2.2))
    else
      let r := tryTO2Loop cfg env st1 rest
      (r.1, r.2.1, Event.to2Attempt u :: r.2.2)

/-- Step 3 of `transferOwnership`: after a directive's URL attempts, wait
`addJitter(directive.Delay)` if the directive configures a delay; with no
configured delay wait `addJitter(120s)` if this is the last directive,
and otherwise advance immediately.  A cancelled wait aborts the run with
the context error and a nil credential. -/
def directiveDelay (env : NetEnv) (st : OrchState) (d : RvDirective)
    (isLastDirective : Bool) : StepOut × OrchState × List Event :=
  if d.delay ≠ 0 then
    let delay := addJitter d.delay (env.rand st.randC)
    let st1 : OrchState := { st with randC := st.randC + 1 }
    match applyDelayM env st1 delay with
    | (some e, st2, _) => (.ret none (some e), st2, [])
    | (none, st2, evs) => (.next, st2, evs)
  else if isLastDirective then
    let delay := addJitter (120 * 1000000000) (env.rand st.randC)
    let st1 : OrchState := { st with randC := st.randC + 1 }
    match applyDelayM env st1 delay with
    | (some e, st2, _) => (.ret none (some e), st2, [])
    | (none, st2, evs) => (.next, st2, evs)
  else
    (.next, st, [])

/-- One directive iteration of `transferOwnership`: discover owner URLs
(TO1 or bypass), run the TO2 loop over them, then apply the directive
delay when the TO2 loop fell through. -/
def directivePass (cfg : OrchConfig) (env : NetEnv) (st : OrchState)
    (d : RvDirective) (isLastDirective : Bool) : StepOut × OrchState × List Event :=
  let g := getOwnerURLs env st.to1C d
  let urls := g.1.1
  let st1 : OrchState := { st with to1C := g.2.1 }
  match tryTO2Loop cfg env st1 urls with
  | (.ret dc e, st2, evs2) => (.ret dc e, st2, g.2.2 ++ evs2)
  | (.next, st2, evs2) =>
    let r := directiveDelay env st2 d isLastDirective
    (r.1, r.2.1, g.2.2 ++ evs2 ++ r.2.2)

/-- The inner `for i, directive := range directives` loop; the last
directive is the one with an empty tail. -/
def directivesPass (cfg : OrchConfig) (env : NetEnv) :
    OrchState → List RvDirective → StepOut × OrchState × List Event
  | st, [] => (.next, st, [])
  | st, d :: rest =>
    match directivePass cfg env st d rest.isEmpty with
    | (.ret dc e, st', evs) => (.ret dc e, st', evs)
    | (.next, st', evs) =>
      let r := directivesPass cfg env st' rest
      (r.1, r.2.1, evs ++ r.2.2)

/-- The infinite outer retry loop, indexed by fuel (number of passes
over the whole directive list); `none` means the loop is still running
after that many passes. -/
def orchLoop (cfg : OrchConfig) (env : NetEnv) (ds : List RvDirective) :
    Nat → OrchState →
      Option (Option DeviceCredential × Option ErrMsg) × OrchState × List Event
  | 0, st => (none, st, [])
  | n + 1, st =>
    match directivesPass cfg env st ds with
    | (.ret dc e, st', evs) => (some (dc, e), st', evs)
    | (.next, st', evs) =>
      let r := orchLoop cfg env ds n st'
      (r.1, r.2.1, evs ++ r.2.2)

/-- The error returned when the parsed directive list is empty (source
message: no rendezvous information found usable for the device). -/
def noRvError : ErrMsg := "no rendezvous information found usable for the device"

/-- Function `transferOwnership` from cmd/onboard.go over the parsed directives:
fail fast on an empty directive list, otherwise run the retry loop. -/
def transferOwnership (cfg : OrchConfig) (env : NetEnv)
    (directives : List RvDirective) (fuel : Nat) :
    Option (Option DeviceCredential × Option ErrMsg) × OrchState × List Event :=
  if directives.isEmpty then
    (some (none, some noRvError), ⟨0, 0, 0, 0⟩, [])
  else
    orchLoop cfg env directives fuel ⟨0, 0, 0, 0⟩

/-! ## TO1 discovery claims -/

theorem tryTO1_all_fail (env : NetEnv) :
    ∀ (us : List String) (c : Nat),
      (∀ k, k < us.length → env.to1 (c + k) = none) →
      tryTO1 env c us = (none, c + us.length, us.map Event.to1Attempt) := by
  intro us
  induction us with
  | nil => intro c _; simp [tryTO1]
  | cons u rest ih =>
    intro c h
    have h0 : env.to1 c = none := by simpa using h 0 (by simp)
    have hrest : ∀ k, k < rest.length → env.to1 (c + 1 + k) = none := by
      intro k hk
      have := h (k + 1) (by simpa using Nat.succ_lt_succ hk)
      simpa [Nat.add_assoc, Nat.add_comm 1 k] using this
    simp [tryTO1, h0, ih (c + 1) hrest]
    omega

theorem tryTO1_first_success (env : NetEnv) :
    ∀ (us : List String) (c j : Nat) (t : To1d),
      j < us.length →
      (∀ k, k < j → env.to1 (c + k) = none) →
      env.to1 (c + j) = some t →
      tryTO1 env c us
        = (some t, c + j + 1, (us.take (j + 1)).map Event.to1Attempt) := by
  intro us
  induction us with
  | nil => intro c j t hj; simp at hj
  | cons u rest ih =>
    intro c j t hj hbefore hsucc
    cases j with
    | zero =>
      have h0 : env.to1 c = some t := by simpa using hsucc
      simp [tryTO1, h0]
    | succ j' =>
      have h0 : env.to1 c = none := by simpa using hbefore 0 (Nat.succ_pos j')
      have hj' : j' < rest.length := by simpa using Nat.lt_of_succ_lt_succ hj
      have hbefore' : ∀ k, k < j' → env.to1 (c + 1 + k) = none := by
        intro k hk
        have := hbefore (k + 1) (Nat.succ_lt_succ hk)
        simpa [Nat.add_assoc, Nat.add_comm 1 k] using this
      have hsucc' : env.to1 (c + 1 + j') = some t := by
        simpa [Nat.add_assoc, Nat.add_comm 1 j'] using hsucc
      simp [tryTO1, h0, ih (c + 1) j' t hj' hbefore' hsucc']
      omega

/-- C6: on a non-bypass directive, `getOwnerURLs` attempts TO1 against
the directive's URLs strictly in listed order and stops at the first
success; if every URL fails it returns no owner URLs and no to1d
statement (not a fatal error). -/
theorem getOwnerURLs_to1_order (env : NetEnv) (c : Nat) (d : RvDirective)
    (hb : d.bypass = false) :
    ((∀ k, k < d.urls.length → env.to1 (c + k) = none) →
      getOwnerURLs env c d
        = (([], none), c + d.urls.length, d.urls.map Event.to1Attempt)) ∧
    (∀ j t, j < d.urls.length →
      (∀ k, k < j → env.to1 (c + k) = none) →
      env.to1 (c + j) = some t →
      getOwnerURLs env c d
        = ((extractOwnerURLs env t.rv, some t), c + j + 1,
            (d.urls.take (j + 1)).map Event.to1Attempt)) := by
  constructor
  · intro h
    simp [getOwnerURLs, hb, tryTO1_all_fail env d.urls c h]
  · intro j t hj hbefore hsucc
    simp [getOwnerURLs, hb, tryTO1_first_success env d.urls c j t hj hbefore hsucc]

/-- Witness for `getOwnerURLs_to1_order`: two URLs; in one environment
both TO1 calls fail, in another the first succeeds. -/
theorem getOwnerURLs_to1_order_witness :
    (getOwnerURLs
        ⟨fun _ => none, fun _ => (none, none), fun _ => false, fun _ => false,
          fun _ => 0, fun _ => false⟩
        0 ⟨["http://rv1", "http://rv2"], 0, false⟩
      = (([], none), 2, [Event.to1Attempt "http://rv1", Event.to1Attempt "http://rv2"])) ∧
    (getOwnerURLs
        ⟨fun _ => some ⟨[]⟩, fun _ => (none, none), fun _ => false, fun _ => false,
          fun _ => 0, fun _ => false⟩
        0 ⟨["http://rv1", "http://rv2"], 0, false⟩
      = (([], some ⟨[]⟩), 1, [Event.to1Attempt "http://rv1"])) := by
  constructor
  · exact (getOwnerURLs_to1_order
      ⟨fun _ => none, fun _ => (none, none), fun _ => false, fun _ => false,
        fun _ => 0, fun _ => false⟩
      0 ⟨["http://rv1", "http://rv2"], 0, false⟩ rfl).1 (fun k _ => rfl)
  · exact (getOwnerURLs_to1_order
      ⟨fun _ => some ⟨[]⟩, fun _ => (none, none), fun _ => false, fun _ => false,
        fun _ => 0, fun _ => false⟩
      0 ⟨["http://rv1", "http://rv2"], 0, false⟩ rfl).2 0 ⟨[]⟩ (by simp)
      (fun k hk => absurd hk (Nat.not_lt_zero k)) rfl

/-- C7: on a bypass directive, `getOwnerURLs` performs no network call
(its event list is empty and the TO1 cursor does not move) and returns
exactly the directive's URLs, in order and unchanged, with no to1d. -/
theorem getOwnerURLs_bypass (env : NetEnv) (c : Nat) (d : RvDirective)
    (hb : d.bypass = true) :
    getOwnerURLs env c d = ((d.urls, none), c, []) := by
  simp [getOwnerURLs, hb]

/-- Witness for `getOwnerURLs_bypass`. -/
theorem getOwnerURLs_bypass_witness :
    getOwnerURLs
        ⟨fun _ => none, fun _ => (none, none), fun _ => false, fun _ => false,
          fun _ => 0, fun _ => false⟩
        3 ⟨["https://owner1", "https://owner2"], 0, true⟩
      = ((["https://owner1", "https://owner2"], none), 3, []) :=
  getOwnerURLs_bypass _ 3 _ rfl

/-- A to1d address entry that contributes no URL, for the reasons the
spec enumerates: both addresses absent, an unsupported transport
protocol, or no resolvable DNS name and no valid IP among the addresses
it carries. -/
def yieldsNoURL (env : NetEnv) (a : RvTO2Addr) : Prop :=
  (a.dns = none ∧ a.ip = none) ∨
  (a.transport ≠ .http ∧ a.transport ≠ .https) ∨
  ((∀ s, a.dns = some s → env.resolvableDNS s = false) ∧
   (∀ s, a.ip = some s → env.validIP s = false))

theorem addrURLs_eq_nil_of_yieldsNoURL (env : NetEnv) (a : RvTO2Addr)
    (h : yieldsNoURL env a) : addrURLs env a = [] := by
  rcases h with ⟨hd, hi⟩ | ⟨h1, h2⟩ | ⟨hd, hi⟩
  · simp [addrURLs, hd, hi]
  · have hsp : schemePort a.transport = none := by
      rcases htr : a.transport <;> simp_all [schemePort]
    simp [addrURLs, hsp]
  · rcases hsp : schemePort a.transport with _ | ⟨scheme, defPort⟩
    · simp [addrURLs, hsp]
    · rcases hdns : a.dns with _ | s
      · rcases hip : a.ip with _ | s'
        · simp [addrURLs, hdns, hip]
        · simp [addrURLs, hdns, hip, hsp, hi s' hip]
      · rcases hip : a.ip with _ | s'
        · simp [addrURLs, hdns, hip, hsp, hd s hdns]
        · simp [addrURLs, hdns, hip, hsp, hd s hdns, hi s' hip]

theorem extractOwnerURLs_eq_nil (env : NetEnv) (rv : List RvTO2Addr)
    (h : ∀ a ∈ rv, yieldsNoURL env a) : extractOwnerURLs env rv = [] := by
  induction rv with
  | nil => rfl
  | cons a rest ih =>
    simp [extractOwnerURLs,
      addrURLs_eq_nil_of_yieldsNoURL env a (h a (by simp)),
      ih (fun b hb => h b (by simp [hb]))]

/-- C8: when the TO1 loop succeeds with a statement whose every address
entry yields no valid address, `getOwnerURLs` returns an empty owner-URL
list together with the to1d statement — a normal return, not an error. -/
theorem getOwnerURLs_empty_addrs (env : NetEnv) (c c' : Nat) (d : RvDirective)
    (t : To1d) (evs : List Event)
    (hb : d.bypass = false)
    (h1 : tryTO1 env c d.urls = (some t, c', evs))
    (h2 : ∀ a ∈ t.rv, yieldsNoURL env a) :
    getOwnerURLs env c d = (([], some t), c', evs) := by
  simp [getOwnerURLs, hb, h1, extractOwnerURLs_eq_nil env t.rv h2]

/-- Witness for `getOwnerURLs_empty_addrs`: TO1 succeeds at once with a
statement carrying one unresolvable-DNS entry and one entry with an
unsupported transport. -/
theorem getOwnerURLs_empty_addrs_witness :
    getOwnerURLs
        ⟨fun _ => some ⟨[⟨some "owner.example", none, 0, .http⟩,
            ⟨none, some "10.0.0.9", 8080, .coap⟩]⟩,
          fun _ => (none, none), fun _ => false, fun _ => false,
          fun _ => 0, fun _ => false⟩
        0 ⟨["http://rv1"], 0, false⟩
      = (([], some ⟨[⟨some "owner.example", none, 0, .http⟩,
          ⟨none, some "10.0.0.9", 8080, .coap⟩]⟩), 1,
          [Event.to1Attempt "http://rv1"]) := by
  apply getOwnerURLs_empty_addrs
    ⟨fun _ => some ⟨[⟨some "owner.example", none, 0, .http⟩,
        ⟨none, some "10.0.0.9", 8080, .coap⟩]⟩,
      fun _ => (none, none), fun _ => false, fun _ => false,
      fun _ => 0, fun _ => false⟩
    0 1 ⟨["http://rv1"], 0, false⟩
    ⟨[⟨some "owner.example", none, 0, .http⟩,
      ⟨none, some "10.0.0.9", 8080, .coap⟩]⟩
    [Event.to1Attempt "http://rv1"] rfl rfl
  intro a ha
  simp only [List.mem_cons, List.not_mem_nil, or_false] at ha
  rcases ha with ha | ha
  · subst ha
    exact Or.inr (Or.inr ⟨fun s hs => rfl, fun s hs => by cases hs⟩)
  · subst ha
    exact Or.inr (Or.inl ⟨by decide, by decide⟩)

/-! ## Return-shape and termination lemmas for the retry loop -/

theorem tryTO2Loop_ret_inv (cfg : OrchConfig) (env : NetEnv) :
    ∀ (urls : List String) (st : OrchState) (dc : Option DeviceCredential)
      (e : Option ErrMsg),
      (tryTO2Loop cfg env st urls).1 = .ret dc e →
      (dc.isSome = true ∧ e = none) ∨ (dc = none ∧ e = some ctxCanceled) := by
  intro urls
  induction urls with
  | nil => intro st dc e h; simp [tryTO2Loop] at h
  | cons u rest ih =>
    intro st dc e h
    simp only [tryTO2Loop] at h
    by_cases h1 : (env.to2 st.to2C).1.isSome
    · rw [if_pos h1] at h
      simp only [StepOut.ret.injEq] at h
      exact Or.inl ⟨h.1 ▸ h1, h.2.symm⟩
    · rw [if_neg h1] at h
      by_cases h2 : rest ≠ [] ∧ cfg.to2RetryDelay > 0
      · rw [if_pos h2] at h
        by_cases h3 : env.cancelledAt st.delayC
        · simp only [applyDelayM, h3, if_true, StepOut.ret.injEq] at h
          exact Or.inr ⟨h.1.symm, h.2.symm⟩
        · simp only [applyDelayM, h3, if_false] at h
          exact ih _ dc e h
      · rw [if_neg h2] at h
        exact ih _ dc e h

theorem directiveDelay_ret_inv (env : NetEnv) (st : OrchState) (d : RvDirective)
    (isLast : Bool) (dc : Option DeviceCredential) (e : Option ErrMsg)
    (h : (directiveDelay env st d isLast).1 = .ret dc e) :
    dc = none ∧ e = some ctxCanceled := by
  simp only [directiveDelay] at h
  by_cases h1 : d.delay ≠ 0
  · rw [if_pos h1] at h
    by_cases h2 : env.cancelledAt st.delayC
    · simp only [applyDelayM, h2, if_true, StepOut.ret.injEq] at h
      exact ⟨h.1.symm, h.2.symm⟩
    · simp only [applyDelayM, h2, if_false] at h
      simp at h
  · rw [if_neg h1] at h
    by_cases h3 : isLast = true
    · rw [if_pos h3] at h
      by_cases h2 : env.cancelledAt st.delayC
      · simp only [applyDelayM, h2, if_true, StepOut.ret.injEq] at h
        exact ⟨h.1.symm, h.2.symm⟩
      · simp only [applyDelayM, h2, if_false] at h
        simp at h
    · rw [if_neg h3] at h
      simp at h

theorem directivePass_ret_inv (cfg : OrchConfig) (env : NetEnv) (st : OrchState)
    (d : RvDirective) (isLast : Bool) (dc : Option DeviceCredential)
    (e : Option ErrMsg)
    (h : (directivePass cfg env st d isLast).1 = .ret dc e) :
    (dc.isSome = true ∧ e = none) ∨ (dc = none ∧ e = some ctxCanceled) := by
  simp only [directivePass] at h
  rcases htl : tryTO2Loop cfg env
      { st with to1C := (getOwnerURLs env st.to1C d).2.1 }
      (getOwnerURLs env st.to1C d).1.1 with ⟨out, st2, evs2⟩
  rw [htl] at h
  cases out with
  | ret dc' e' =>
    simp only [StepOut.ret.injEq] at h
    have := tryTO2Loop_ret_inv cfg env _ _ dc' e' (by rw [htl])
    rcases h with ⟨h1, h2⟩
    subst h1; subst h2
    exact this
  | next =>
    simp only at h
    exact Or.inr (directiveDelay_ret_inv env st2 d isLast dc e h)

theorem directivesPass_ret_inv (cfg : OrchConfig) (env : NetEnv) :
    ∀ (ds : List RvDirective) (st : OrchState) (dc : Option DeviceCredential)
      (e : Option ErrMsg),
      (directivesPass cfg env st ds).1 = .ret dc e →
      (dc.isSome = true ∧ e = none) ∨ (dc = none ∧ e = some ctxCanceled) := by
  intro ds
  induction ds with
  | nil => intro st dc e h; simp [directivesPass] at h
  | cons d rest ih =>
    intro st dc e h
    simp only [directivesPass] at h
    rcases hdp : directivePass cfg env st d rest.isEmpty with ⟨out, st', evs⟩
    rw [hdp] at h
    cases out with
    | ret dc' e' =>
      simp only [StepOut.ret.injEq] at h
      rcases h with ⟨h1, h2⟩
      subst h1; subst h2
      exact directivePass_ret_inv cfg env st d rest.isEmpty dc' e' (by rw [hdp])
    | next =>
      simp only at h
      exact ih st' dc e h

theorem orchLoop_some_inv (cfg : OrchConfig) (env : NetEnv) (ds : List RvDirective) :
    ∀ (n : Nat) (st : OrchState) (dc : Option DeviceCredential) (e : Option ErrMsg),
      (orchLoop cfg env ds n st).1 = some (dc, e) →
      (dc.isSome = true ∧ e = none) ∨ (dc = none ∧ e = some ctxCanceled) := by
  intro n
  induction n with
  | zero => intro st dc e h; simp [orchLoop] at h
  | succ n ih =>
    intro st dc e h
    simp only [orchLoop] at h
    rcases hdp : directivesPass cfg env st ds with ⟨out, st', evs⟩
    rw [hdp] at h
    cases out with
    | ret dc' e' =>
      simp only [Option.some.injEq, Prod.mk.injEq] at h
      rcases h with ⟨h1, h2⟩
      subst h1; subst h2
      exact directivesPass_ret_inv cfg env ds st dc' e' (by rw [hdp])
    | next =>
      simp only at h
      exact ih st' dc e h

theorem tryTO2Loop_no_ret (cfg : OrchConfig) (env : NetEnv)
    (hnc : ∀ k, env.cancelledAt k = false)
    (hns : ∀ k, (env.to2 k).1 = none) :
    ∀ (urls : List String) (st : OrchState),
      (tryTO2Loop cfg env st urls).1 = .next := by
  intro urls
  induction urls with
  | nil => intro st; simp [tryTO2Loop]
  | cons u rest ih =>
    intro st
    simp only [tryTO2Loop, hns st.to2C, Option.isSome_none, Bool.false_eq_true,
      if_false]
    by_cases h2 : rest ≠ [] ∧ cfg.to2RetryDelay > 0
    · rw [if_pos h2]
      simp only [applyDelayM, hnc, Bool.false_eq_true, if_false]
      exact ih _
    · rw [if_neg h2]
      exact ih _

theorem directiveDelay_no_ret (env : NetEnv)
    (hnc : ∀ k, env.cancelledAt k = false)
    (st : OrchState) (d : RvDirective) (isLast : Bool) :
    (directiveDelay env st d isLast).1 = .next := by
  simp only [directiveDelay]
  by_cases h1 : d.delay ≠ 0
  · rw [if_pos h1]
    simp [applyDelayM, hnc]
  · rw [if_neg h1]
    by_cases h3 : isLast = true
    · rw [if_pos h3]
      simp [applyDelayM, hnc]
    · rw [if_neg h3]

theorem directivePass_no_ret (cfg : OrchConfig) (env : NetEnv)
    (hnc : ∀ k, env.cancelledAt k = false)
    (hns : ∀ k, (env.to2 k).1 = none)
    (st : OrchState) (d : RvDirective) (isLast : Bool) :
    (directivePass cfg env st d isLast).1 = .next := by
  simp only [directivePass]
  rcases htl : tryTO2Loop cfg env
      { st with to1C := (getOwnerURLs env st.to1C d).2.1 }
      (getOwnerURLs env st.to1C d).1.1 with ⟨out, st2, evs2⟩
  have : out = .next := by
    have := tryTO2Loop_no_ret cfg env hnc hns
      (getOwnerURLs env st.to1C d).1.1
      { st with to1C := (getOwnerURLs env st.to1C d).2.1 }
    rw [htl] at this
    exact this
  subst this
  exact directiveDelay_no_ret env hnc st2 d isLast

theorem directivesPass_no_ret (cfg : OrchConfig) (env : NetEnv)
    (hnc : ∀ k, env.cancelledAt k = false)
    (hns : ∀ k, (env.to2 k).1 = none) :
    ∀ (ds : List RvDirective) (st : OrchState),
      (directivesPass cfg env st ds).1 = .next := by
  intro ds
  induction ds with
  | nil => intro st; simp [directivesPass]
  | cons d rest ih =>
    intro st
    simp only [directivesPass]
    rcases hdp : directivePass cfg env st d rest.isEmpty with ⟨out, st', evs⟩
    have : out = .next := by
      have := directivePass_no_ret cfg env hnc hns st d rest.isEmpty
      rw [hdp] at this
      exact this
    subst this
    simp only
    exact ih st'

theorem orchLoop_none (cfg : OrchConfig) (env : NetEnv)
    (hnc : ∀ k, env.cancelledAt k = false)
    (hns : ∀ k, (env.to2 k).1 = none) (ds : List RvDirective) :
    ∀ (n : Nat) (st : OrchState), (orchLoop cfg env ds n st).1 = none := by
  intro n
  induction n with
  | zero => intro st; simp [orchLoop]
  | succ n ih =>
    intro st
    simp only [orchLoop]
    rcases hdp : directivesPass cfg env st ds with ⟨out, st', evs⟩
    have : out = .next := by
      have := directivesPass_no_ret cfg env hnc hns ds st
      rw [hdp] at this
      exact this
    subst this
    simp only
    exact ih st'

/-- C10: `transferOwnership` never returns a nil credential together
with a nil error: every terminating run yields either a credential with
no error (a TO2 success) or no credential with an error (empty directive
list, or context cancellation during a wait). -/
theorem transferOwnership_no_nil_nil (cfg : OrchConfig) (env : NetEnv)
    (ds : List RvDirective) (fuel : Nat) (dc : Option DeviceCredential)
    (e : Option ErrMsg)
    (h : (transferOwnership cfg env ds fuel).1 = some (dc, e)) :
    (dc.isSome = true ∧ e = none) ∨ (dc = none ∧ e.isSome = true) := by
  simp only [transferOwnership] at h
  by_cases hds : ds.isEmpty
  · rw [if_pos hds] at h
    simp only [Option.some.injEq, Prod.mk.injEq] at h
    exact Or.inr ⟨h.1.symm, by rw [← h.2]; rfl⟩
  · rw [if_neg hds] at h
    rcases orchLoop_some_inv cfg env ds fuel ⟨0, 0, 0, 0⟩ dc e h with h' | h'
    · exact Or.inl h'
    · exact Or.inr ⟨h'.1, by rw [h'.2]; rfl⟩

/-- Witness for `transferOwnership_no_nil_nil`: the empty directive list
terminates immediately with an error and no credential. -/
theorem transferOwnership_no_nil_nil_witness :
    ((none : Option DeviceCredential).isSome = true ∧
        (some noRvError : Option ErrMsg) = none) ∨
    ((none : Option DeviceCredential) = none ∧
        (some noRvError : Option ErrMsg).isSome = true) :=
  transferOwnership_no_nil_nil ⟨0⟩
    ⟨fun _ => none, fun _ => (none, none), fun _ => false, fun _ => false,
      fun _ => 0, fun _ => false⟩
    [] 0 none (some noRvError) rfl

/-- C9: a cancellation that fires at a wait makes the wait abort with
the context's error; a cancelled directive wait or inter-URL wait makes
the surrounding loop return the cancellation error with a nil
credential; the inner pass's early return is the outer loop's return;
and with no cancellation and no TO2 success the loop never terminates —
handshake failures and directive exhaustion never by themselves end it. -/
theorem cancellation_semantics (cfg : OrchConfig) (env : NetEnv) :
    (∀ (st : OrchState) (dly : ℤ), env.cancelledAt st.delayC = true →
      applyDelayM env st dly
        = (some ctxCanceled, { st with delayC := st.delayC + 1 }, [])) ∧
    (∀ (st : OrchState) (d : RvDirective) (isLast : Bool),
      env.cancelledAt st.delayC = true → (d.delay ≠ 0 ∨ isLast = true) →
      directiveDelay env st d isLast
        = (.ret none (some ctxCanceled),
            { st with delayC := st.delayC + 1, randC := st.randC + 1 }, [])) ∧
    (∀ (st : OrchState) (u v : String) (rest : List String),
      env.cancelledAt st.delayC = true → (env.to2 st.to2C).1 = none →
      cfg.to2RetryDelay > 0 →
      tryTO2Loop cfg env st (u :: v :: rest)
        = (.ret none (some ctxCanceled),
            { st with to2C := st.to2C + 1, delayC := st.delayC + 1 },
            [Event.to2Attempt u])) ∧
    (∀ (ds : List RvDirective) (n : Nat) (st st' : OrchState)
      (dc : Option DeviceCredential) (e : Option ErrMsg) (evs : List Event),
      directivesPass cfg env st ds = (.ret dc e, st', evs) →
      orchLoop cfg env ds (n + 1) st = (some (dc, e), st', evs)) ∧
    ((∀ k, env.cancelledAt k = false) → (∀ k, (env.to2 k).1 = none) →
      ∀ (ds : List RvDirective) (n : Nat) (st : OrchState),
        (orchLoop cfg env ds n st).1 = none) := by
  refine ⟨?_, ?_, ?_, ?_, ?_⟩
  · intro st dly hc
    simp [applyDelayM, hc]
  · intro st d isLast hc hd
    rcases hd with hd | hd
    · simp [directiveDelay, hd, applyDelayM, hc]
    · by_cases hd0 : d.delay ≠ 0
      · simp [directiveDelay, hd0, applyDelayM, hc]
      · simp [directiveDelay, hd0, hd, applyDelayM, hc]
  · intro st u v rest hc hns hrd
    simp only [tryTO2Loop, hns, Option.isSome_none, Bool.false_eq_true, if_false]
    rw [if_pos ⟨by simp, hrd⟩]
    simp [applyDelayM, hc]
  · intro ds n st st' dc e evs h
    simp [orchLoop, h]
  · intro hnc hns ds n st
    exact orchLoop_none cfg env hnc hns ds n st

/-- Witness for `cancellation_semantics`: a context cancelled from the
start aborts the directive wait with the context error and a nil
credential, and a quiet context with only failing TO2 attempts keeps the
loop running through three full passes. -/
theorem cancellation_semantics_witness :
    directiveDelay
        ⟨fun _ => none, fun _ => (none, none), fun _ => false, fun _ => false,
          fun _ => 0, fun _ => true⟩
        ⟨0, 0, 0, 0⟩ ⟨[], 5, false⟩ false
      = (.ret none (some ctxCanceled), ⟨0, 0, 1, 1⟩, []) ∧
    (orchLoop ⟨0⟩
        ⟨fun _ => none, fun _ => (none, none), fun _ => false, fun _ => false,
          fun _ => 0, fun _ => false⟩
        [⟨["http://owner.example"], 0, true⟩] 3 ⟨0, 0, 0, 0⟩).1 = none := by
  constructor
  · exact (cancellation_semantics ⟨0⟩
      ⟨fun _ => none, fun _ => (none, none), fun _ => false, fun _ => false,
        fun _ => 0, fun _ => true⟩).2.1
      ⟨0, 0, 0, 0⟩ ⟨[], 5, false⟩ false rfl (Or.inl (by decide))
  · exact (cancellation_semantics ⟨0⟩
      ⟨fun _ => none, fun _ => (none, none), fun _ => false, fun _ => false,
        fun _ => 0, fun _ => false⟩).2.2.2.2
      (fun _ => rfl) (fun _ => rfl) [⟨["http://owner.example"], 0, true⟩] 3
      ⟨0, 0, 0, 0⟩

/-- C4: the delay policy after a directive's URL attempts: a non-zero
configured delay waits `addJitter(delay)`; a zero delay on the last
directive waits `addJitter(120s)`; a zero delay on a non-last directive
advances immediately with no wait.  The final conjunct ties this step to
the pass: whenever the TO2 loop over the discovered owner URLs falls
through, the pass ends with exactly this delay step. -/
theorem directiveDelay_policy (cfg : OrchConfig) (env : NetEnv) (st : OrchState)
    (d : RvDirective) (isLast : Bool)
    (hnc : env.cancelledAt st.delayC = false) :
    (d.delay ≠ 0 →
      directiveDelay env st d isLast
        = (.next, { st with delayC := st.delayC + 1, randC := st.randC + 1 },
            [Event.wait (addJitter d.delay (env.rand st.randC))])) ∧
    (d.delay = 0 → isLast = true →
      directiveDelay env st d isLast
        = (.next, { st with delayC := st.delayC + 1, randC := st.randC + 1 },
            [Event.wait (addJitter (120 * 1000000000) (env.rand st.randC))])) ∧
    (d.delay = 0 → isLast = false →
      directiveDelay env st d isLast = (.next, st, [])) ∧
    (∀ (st2 : OrchState) (evs2 : List Event),
      tryTO2Loop cfg env { st with to1C := (getOwnerURLs env st.to1C d).2.1 }
          (getOwnerURLs env st.to1C d).1.1 = (.next, st2, evs2) →
      directivePass cfg env st d isLast
        = ((directiveDelay env st2 d isLast).1,
            (directiveDelay env st2 d isLast).2.1,
            (getOwnerURLs env st.to1C d).2.2 ++ evs2 ++
              (directiveDelay env st2 d isLast).2.2)) := by
  refine ⟨?_, ?_, ?_, ?_⟩
  · intro hd
    simp [directiveDelay, hd, applyDelayM, hnc]
  · intro hd hl
    simp [directiveDelay, hd, hl, applyDelayM, hnc]
  · intro hd hl
    simp [directiveDelay, hd, hl]
  · intro st2 evs2 h
    simp [directivePass, h]

/-- Witness for `directiveDelay_policy`, on a directive with a 5 ns
configured delay (first conjunct) and a zero-delay non-last directive
(third conjunct). -/
theorem directiveDelay_policy_witness :
    directiveDelay
        ⟨fun _ => none, fun _ => (none, none), fun _ => false, fun _ => false,
          fun _ => 0, fun _ => false⟩
        ⟨0, 0, 0, 0⟩ ⟨[], 5, false⟩ false
      = (.next, ⟨0, 0, 1, 1⟩,
          [Event.wait (addJitter 5 0)]) ∧
    directiveDelay
        ⟨fun _ => none, fun _ => (none, none), fun _ => false, fun _ => false,
          fun _ => 0, fun _ => false⟩
        ⟨0, 0, 0, 0⟩ ⟨[], 0, false⟩ false
      = (.next, ⟨0, 0, 0, 0⟩, []) := by
  constructor
  · exact (directiveDelay_policy ⟨0⟩
      ⟨fun _ => none, fun _ => (none, none), fun _ => false, fun _ => false,
        fun _ => 0, fun _ => false⟩
      ⟨0, 0, 0, 0⟩ ⟨[], 5, false⟩ false rfl).1 (by decide)
  · exact (directiveDelay_policy ⟨0⟩
      ⟨fun _ => none, fun _ => (none, none), fun _ => false, fun _ => false,
        fun _ => 0, fun _ => false⟩
      ⟨0, 0, 0, 0⟩ ⟨[], 0, false⟩ false rfl).2.2.1 rfl rfl

/-- The credential-reuse run of claim C1: a single bypass directive with
one owner URL; every TO2 attempt returns the credential-reuse sentinel
(nil credential with nil error); the context is never cancelled. -/
def reuseEnv : NetEnv :=
  ⟨fun _ => none, fun _ => (none, none), fun _ => false, fun _ => false,
    fun _ => 0, fun _ => false⟩

def reuseDirective : RvDirective := ⟨["http://owner.example"], 0, true⟩

/-- C1 (against the claim): when a TO2 attempt returns the reuse
sentinel `(nil, nil)`, `transferOwnership` classifies it by the
`newDC != nil` test alone, so the attempt falls into the failure branch
(first conjunct), and the orchestrator never returns at all — for every
fuel bound the retry loop is still running (second conjunct), so it
neither returns early with success nor reaches `doOnboard`'s
credential-reuse return path. -/
theorem transferOwnership_reuse_loops_forever :
    tryTO2Loop ⟨0⟩ reuseEnv ⟨0, 0, 0, 0⟩ ["http://owner.example"]
      = (.next, ⟨0, 1, 0, 0⟩, [Event.to2Attempt "http://owner.example"]) ∧
    ∀ n, (transferOwnership ⟨0⟩ reuseEnv [reuseDirective] n).1 = none := by
  constructor
  · rfl
  · intro n
    simp only [transferOwnership, List.isEmpty_cons, Bool.false_eq_true,
      if_false]
    exact orchLoop_none ⟨0⟩ reuseEnv (fun _ => rfl) (fun _ => rfl)
      [reuseDirective] n ⟨0, 0, 0, 0⟩

end FdoClient
